import Mathlib

/-!
Verification of the tutorial framework of this repository: the
directory-to-outline classification engine and the code-snippet
execution / error-mapping logic, embedded from
`src/traitsui/extras/tutor.py` (classification, `Lab.run_code`,
`ASection._load_dirs`, `ASection._load_toc`) and
`src/examples/tutorials/tutor.py` (the command-line entry point).

Python strings are modelled as `String`/`List Char`, dictionaries as
functions into `Option`, Python `float` sort keys as exact decimal
values, and the `exec` of user code as an abstract function producing
an outcome, a resulting namespace and the text written to the captured
standard output/error streams.
-/

namespace Tutor

/-- Number of newline characters in a string (Python `s.count('\n')`).
A fragment made of `n` newline-terminated lines has `n` newlines. -/
def countNewlines (s : String) : Nat := s.toList.count '\n'

/-- Python `str.capitalize`: first character upper-cased, the rest
lower-cased. -/
def pyCapitalize (s : String) : String :=
  match s.toList with
  | [] => s
  | c :: rest => String.mk (c.toUpper :: rest.map Char.toLower)

/-- Helper for `capwords`: split a character list into maximal
whitespace-free words (Python `str.split()` with no argument). -/
def wordsAux : List Char → List Char → List (List Char)
  | [], acc => if acc.isEmpty then [] else [acc.reverse]
  | c :: rest, acc =>
    if c.isWhitespace then
      if acc.isEmpty then wordsAux rest [] else acc.reverse :: wordsAux rest []
    else wordsAux rest (c :: acc)

/-- Python `string.capwords`: split on whitespace, capitalize each word,
join with single spaces. -/
def capwords (s : String) : String :=
  String.intercalate (" ") ((wordsAux s.toList []).map (fun w => pyCapitalize (String.mk w)))

/-- The `title_for` helper of tutor.py: replace underscores by spaces and apply
`capwords`. -/
def title_for (title : String) : String :=
  capwords (String.mk (title.toList.map (fun c => if c = '_' then ' ' else c)))

/-- Python `str.strip()`: drop leading and trailing whitespace. -/
def pyStrip (s : String) : String :=
  String.mk (((s.toList.dropWhile Char.isWhitespace).reverse.dropWhile Char.isWhitespace).reverse)

/-- Python `os.path.basename`: the part of the path after the last slash. -/
def basename (p : String) : String :=
  String.mk ((p.toList.reverse.takeWhile (fun c => c ≠ '/')).reverse)

/-- Root part of `os.path.splitext`: strip the extension after the last
dot, provided some character before that dot is not itself a dot (so
purely dotted prefixes such as `.bashrc` keep their name). -/
def splitextRoot (name : String) : String :=
  let cs := name.toList
  let revExt := cs.reverse.takeWhile (fun c => c ≠ '.')
  if revExt.length = cs.length then name
  else
    let i := cs.length - revExt.length - 1
    if (cs.take i).any (fun c => c ≠ '.') then String.mk (cs.take i) else name

/-- Text before the first colon: Python `item.split(':', 1)[0]`. -/
def beforeColon (s : String) : String :=
  String.mk (s.toList.takeWhile (fun c => c ≠ ':'))

/-- Text after the first colon, when a colon is present: Python
`item.split(':', 1)[1]`. -/
def afterColonOpt (s : String) : Option String :=
  if s.toList.any (fun c => c = ':') then
    some (String.mk ((s.toList.dropWhile (fun c => c ≠ ':')).drop 1))
  else none

/-- The `CodeItem` class of tutor.py: one Python code fragment of a Lab/Lesson.
Only the traits the core logic reads are modelled: the source text, the
assigned start line inside the concatenated module, and the hidden
flag. -/
structure CodeItem where
  content : String
  start_line : Nat
  hidden : Bool
deriving DecidableEq, Repr

instance : Inhabited CodeItem := ⟨⟨"", 0, false⟩⟩

/-- The start-line assignment loop of `Lab.run_code` (tutor.py lines
851-856): each snippet receives the running line counter, which then
advances by the snippet's newline count plus the two newline characters
of the `'%s\n\n%s'` separator. -/
def assignStartLinesFrom (start : Nat) : List CodeItem → List CodeItem
  | [] => []
  | s :: rest =>
    { s with start_line := start } ::
      assignStartLinesFrom (start + countNewlines s.content + 2) rest

/-- Start-line assignment of `Lab.run_code`, beginning at line 1. -/
def assignStartLines (snippets : List CodeItem) : List CodeItem :=
  assignStartLinesFrom 1 snippets

/-- The concatenated module text of `Lab.run_code`: fragments joined by
`'%s\n\n%s'`, with the leading two newlines stripped (`module[2:]`). -/
def buildModule (snippets : List CodeItem) : String :=
  (snippets.foldl (fun m s => m ++ ("\n\n") ++ s.content) ("")).drop 2

/-- Spec-side formula for claim C3, following the spec's words: the
1-indexed start line of fragment `k` is the cumulative line count of
all prior fragments plus the two separator lines between each pair. -/
def specStartLine (contents : List String) (k : Nat) : Nat :=
  ((contents.take k).map countNewlines).sum + 2 * k + 1

/-- A Python value held in the execution namespace: either an instance
of `HasTraits` or any other value. -/
inductive PyValue where
  | hasTraitsObj (ident : Nat)
  | plain (ident : Nat)
deriving DecidableEq, Repr

/-- Python `isinstance(v, HasTraits)`. -/
def isHasTraits : PyValue → Bool
  | PyValue.hasTraitsObj _ => true
  | PyValue.plain _ => false

/-- The `values` dictionary of a Lab: the persistent execution
namespace, a mapping from names to optional values. -/
def PyNamespace : Type := String → Option PyValue

/-- Python `del values[key]` on a dictionary modelled as a function. -/
def deleteKey (ns : PyNamespace) (key : String) : PyNamespace :=
  fun n => if n = key then none else ns n

/-- The stale-value clearing loop of `Lab.run_code` (tutor.py lines
870-873): for each of the names 'demo' and 'popup' in turn, delete the
binding exactly when its current value is an instance of `HasTraits`
(`isinstance(values.get(name), HasTraits)`). -/
def clearStale (ns : PyNamespace) : PyNamespace :=
  let ns1 := if ((ns ("demo")).map isHasTraits).getD false then deleteKey ns ("demo") else ns
  if ((ns1 ("popup")).map isHasTraits).getD false then deleteKey ns1 ("popup") else ns1

/-- Outcome of executing the concatenated lab code (`exec(module[2:],
values, values)`): success, a syntax error with an optional reported
line number, a message and a column offset, or any other exception
whose traceback is printed to the redirected stderr. -/
inductive ExecOutcome where
  | ok
  | syntaxError (lineno : Option Nat) (msg : String) (offset : Nat)
  | otherError (trace : String)
deriving DecidableEq, Repr

/-- The pair of process-wide standard output and error streams
(`sys.stdout`, `sys.stderr`), over an abstract stream type. -/
structure Streams (σ : Type) where
  out : σ
  err : σ
deriving DecidableEq

/-- The snippet-selection loop of the `SyntaxError` handler in
`Lab.run_code` (lines 898-902): starting from the first snippet, walk
the snippets in order, breaking before the first snippet whose start
line exceeds the reported line; the selection is the last snippet seen
before the break. -/
def selectFrom (cur : CodeItem) (line : Nat) : List CodeItem → CodeItem
  | [] => cur
  | s :: rest => if line < s.start_line then cur else selectFrom s line rest

/-- Snippet selection of `Lab.run_code`, starting from `snippets[0]`. -/
def selectSnippet (snippets : List CodeItem) (line : Nat) : CodeItem :=
  selectFrom snippets.headI line snippets

/-- Spec-side definition for claim C2, following the spec's words: the
last fragment (scanning the fragments in order) whose start line does
not exceed the reported line. -/
def lastFragmentLE (snippets : List CodeItem) (line : Nat) : Option CodeItem :=
  (snippets.filter (fun s => decide (s.start_line ≤ line))).getLast?

/-- The observable result of one `Lab.run_code` call: the snippets with
their reassigned start lines, the execution namespace afterwards, the
user message, the captured output log, the selected snippet and local
line of a located syntax error (if any), and the standard stream pair
after the call. -/
structure RunResult (σ : Type) where
  snippets : List CodeItem
  values : PyNamespace
  message : String
  output : String
  selected : Option (CodeItem × Nat)
  streams : Streams σ

/-- The `Lab.run_code` method (tutor.py lines 847-922). The start lines are first
reassigned by concatenation order; `message` and `output` are reset;
the streams are saved and both redirected to the `StdOut` capture
object; the namespace is cleared of stale 'demo'/'popup' instances and
the module is executed (abstracted as `execModule`, returning the
outcome, the namespace afterwards and the text written to the captured
streams); a `SyntaxError` carrying a line number is mapped back to a
snippet and local line; any other exception prints its traceback to
the captured stderr; finally the saved streams are restored
unconditionally (the `finally` block). On a syntax error the namespace
is unchanged from the cleared one, since compilation fails before any
code runs. -/
def run_code (σ : Type) (redirected : σ)
    (execModule : PyNamespace → ExecOutcome × PyNamespace × String)
    (snippets0 : List CodeItem) (values0 : PyNamespace)
    (streams0 : Streams σ) : RunResult σ :=
  let snippets := assignStartLinesFrom 1 snippets0
  let saved := streams0
  let _redirectedStreams : Streams σ := ⟨redirected, redirected⟩
  let cleared := clearStale values0
  let r := execModule cleared
  let written := r.2.2
  match r.1 with
  | ExecOutcome.ok =>
    ⟨snippets, r.2.1, (""), written, none, saved⟩
  | ExecOutcome.syntaxError (some line) msg offset =>
    let snip := selectFrom snippets.headI line snippets
    let localLine := line - (snip.start_line - 1)
    ⟨snippets, cleared,
      pyCapitalize msg ++ (" in column ") ++ toString offset ++ (" of line ") ++ toString localLine,
      written, some (snip, localLine), saved⟩
  | ExecOutcome.syntaxError none msg _ =>
    ⟨snippets, cleared, pyCapitalize msg, written, none, saved⟩
  | ExecOutcome.otherError trace =>
    ⟨snippets, r.2.1, (""), written ++ trace, none, saved⟩

/-- The everywhere-empty execution namespace. -/
def emptyPyNamespace : PyNamespace := fun _ => none

/-- A namespace binding 'demo' to a value that is not a `HasTraits`
instance. -/
def exPlainDemoNamespace : PyNamespace :=
  fun n => if n = ("demo") then some (PyValue.plain 0) else none

/-- The four concrete section classes of tutor.py: `Lecture`, `Lab`,
`Lesson` and `Demo`. -/
inductive SectionKind where
  | lecture
  | lab
  | lesson
  | demo
deriving DecidableEq, Repr

/-- A description item of a section (text, HTML, image, ... pages).
Only the title and the displayable content are modelled. -/
structure DescItem where
  title : String
  content : String
deriving DecidableEq, Repr

/-- A section produced by `SectionFactory._path_changed`: its class,
title, description items, code snippets, and the `is_runnable` and
`auto_run` traits (`is_runnable` is `False` only for `Lecture`;
`auto_run` defaults to `False` on `ASection`). -/
structure TutorSection where
  kind : SectionKind
  title : String
  descriptions : List DescItem
  snippets : List CodeItem
  is_runnable : Bool
  auto_run : Bool
deriving DecidableEq, Repr

/-- The `DefaultLecture` HTML template of tutor.py applied to the
`<li>` lines built from the subsection titles (the
`DefaultLecture % '\n'.join(...)` expression of `_path_changed`). -/
def defaultLectureHtml (titles : List String) : String :=
  ("<html>\n  <head>\n  </head>\n  <body>\n    <p>This section contains the following topics:</p>\n    <ul>\n    ")
    ++ String.intercalate ("\n") (titles.map (fun t => ("<li>") ++ t ++ ("</li>")))
    ++ ("\n    </ul>\n  </body>\n</html>\n")

/-- The description item synthesized by `_path_changed` for a lecture
with no content of its own: an HTML item whose title derives from the
directory name and whose content is the default lecture page listing
the subsection titles. -/
def synthDescription (path : String) (subsectionTitles : List String) : DescItem :=
  ⟨title_for (splitextRoot (basename path)), defaultLectureHtml subsectionTitles⟩

/-- The classification decision of `SectionFactory._path_changed`
(tutor.py lines 1131-1191), taking the collected description items and
code snippets, the factory's `auto_run` setting, and the titles of the
subsections the bare lecture would have. With descriptions and
snippets it builds a `Lesson` when some snippet is not hidden, else a
`Demo` whose `auto_run` is forced to `True`; with only descriptions a
`Lecture`; with only snippets a `Lab`; with neither, a `Lecture` is
returned only when it has subsections (receiving the synthesized
description item), and otherwise no section at all is produced. -/
def sectionFor (path title : String) (descriptions : List DescItem)
    (snippets : List CodeItem) (auto_run : Bool)
    (subsectionTitles : List String) : Option TutorSection :=
  if 0 < descriptions.length then
    if 0 < snippets.length then
      if 0 < (snippets.filter (fun s => !s.hidden)).length then
        some ⟨SectionKind.lesson, title, descriptions, snippets, true, auto_run⟩
      else
        some ⟨SectionKind.demo, title, descriptions, snippets, true, true⟩
    else
      some ⟨SectionKind.lecture, title, descriptions, [], false, false⟩
  else if 0 < snippets.length then
    some ⟨SectionKind.lab, title, [], snippets, true, auto_run⟩
  else if 0 < subsectionTitles.length then
    some ⟨SectionKind.lecture, title, [synthDescription path subsectionTitles], [], false, false⟩
  else
    none

/-- The default of the `auto_run` trait of `SectionFactory`
(tutor.py line 1094). -/
def sectionFactoryAutoRunDefault : Bool := false

/-- The `LabHandler.init` method (tutor.py lines 717-722): on display of the
view, the section's code is run exactly when `auto_run` is set. -/
def labHandlerRunsCode (auto_run : Bool) : Bool := auto_run

/-- A sample description item. -/
def exDesc : DescItem := ⟨("Doc"), ("some text")⟩

/-- A sample visible code snippet. -/
def exVisibleSnippet : CodeItem := ⟨("x = 1\n"), 0, false⟩

/-- A sample hidden code snippet. -/
def exHiddenSnippet : CodeItem := ⟨("x = 1\n"), 0, true⟩

/-- Numeric value of a decimal digit character. -/
def digitVal (c : Char) : Nat := c.toNat - ('0').toNat

/-- Natural number denoted by a list of decimal digit characters. -/
def natOfDigits (cs : List Char) : Nat := cs.foldl (fun a c => 10 * a + digitVal c) 0

/-- An exact decimal sort key `mantissa / 10 ^ scale`, modelling the
Python `float(...)` sort key of `_load_dirs` as an exact decimal value
(the directory-name literals `NNNN` and `N.N` are decimal). -/
structure DecKey where
  mantissa : Nat
  scale : Nat
deriving DecidableEq, Repr

/-- Numeric comparison of decimal keys by cross-multiplication:
`a.mantissa / 10^a.scale ≤ b.mantissa / 10^b.scale`. -/
def keyLE (a b : DecKey) : Prop :=
  a.mantissa * 10 ^ b.scale ≤ b.mantissa * 10 ^ a.scale

instance (a b : DecKey) : Decidable (keyLE a b) :=
  inferInstanceAs (Decidable (a.mantissa * 10 ^ b.scale ≤ b.mantissa * 10 ^ a.scale))

/-- Matching against `dir_pat1 = re.compile(r'^(\d\d\d\d)_(.*)$')`:
exactly four digits, an underscore, and the rest as the title; the
numeric value of the four digits (Python `float(group(1))`) is the
sort key. -/
def dir_pat1_match (name : String) : Option (DecKey × String) :=
  match name.toList with
  | c1 :: c2 :: c3 :: c4 :: c5 :: rest =>
    if c1.isDigit && c2.isDigit && c3.isDigit && c4.isDigit && (c5 == '_') then
      some (⟨natOfDigits [c1, c2, c3, c4], 0⟩, String.mk rest)
    else none
  | _ => none

/-- Exact decimal value of the literal `ip.frac`. -/
def decKeyOfDigits (ip frac : List Char) : DecKey :=
  ⟨natOfDigits ip * 10 ^ frac.length + natOfDigits frac, frac.length⟩

/-- Recognize `\d+\.\d+` covering the whole character list and return
its numeric value. -/
def numSuffixVal (cs : List Char) : Option DecKey :=
  match cs.takeWhile Char.isDigit, cs.dropWhile Char.isDigit with
  | [], _ => none
  | _, [] => none
  | ip, d :: frac =>
    if (d == '.') && (!frac.isEmpty) && (frac.all Char.isDigit) then
      some (decKeyOfDigits ip frac)
    else none

/-- Matching against `dir_pat2 = re.compile(r'^(.*)_(\d+\.\d+)$')`:
the greedy `(.*)` picks the rightmost underscore whose suffix is a
decimal number, returning the prefix (the title) and the number. -/
def dir_pat2_match_list : List Char → Option (List Char × DecKey)
  | [] => none
  | c :: rest =>
    match dir_pat2_match_list rest with
    | some pv => some (c :: pv.1, pv.2)
    | none =>
      if c == '_' then
        match numSuffixVal rest with
        | some v => some ([], v)
        | none => none
      else none

/-- String-level wrapper of `dir_pat2_match_list`. -/
def dir_pat2_match (name : String) : Option (String × DecKey) :=
  (dir_pat2_match_list name.toList).map (fun pv => (String.mk pv.1, pv.2))

/-- One entry of the `dirs` list built by `ASection._load_dirs`
(tutor.py lines 595-606): the numeric sort key, the raw title text
extracted by the pattern, and the full directory path. -/
structure DirMatch where
  key : DecKey
  rawTitle : String
  dir : String
deriving DecidableEq, Repr

/-- The per-subdirectory test of `_load_dirs`: try `dir_pat1` first,
then `dir_pat2`; a name matching neither is dropped. -/
def parseDirName (path : String) (name : String) : Option DirMatch :=
  match dir_pat1_match name with
  | some kv => some ⟨kv.1, kv.2, path ++ ("/") ++ name⟩
  | none =>
    match dir_pat2_match name with
    | some tv => some ⟨tv.2, tv.1, path ++ ("/") ++ name⟩
    | none => none

/-- Stable insertion into a list sorted by `key` (an element is placed
before the first entry whose key is not smaller). -/
def insertByKey (x : DirMatch) : List DirMatch → List DirMatch
  | [] => [x]
  | y :: ys => if keyLE x.key y.key then x :: y :: ys else y :: insertByKey x ys

/-- Stable sort by `key`, modelling `dirs.sort(key=itemgetter(0))` of
`_load_dirs` (Python's sort is stable). -/
def sortByKey : List DirMatch → List DirMatch
  | [] => []
  | x :: xs => insertByKey x (sortByKey xs)

/-- What a subdirectory contains, as far as classification is
concerned: the description items and code snippets its files produce,
and the titles of the subsections a bare lecture for it would have.
This abstracts the per-file content builders (which depend on
`parse_source`/`read_file`, outside the classification core). -/
structure DirContents where
  descriptions : List DescItem
  snippets : List CodeItem
  subsectionTitles : List String

/-- The `SectionFactory(title=title_for(title), parent=self)
.trait_set(path=dir).section` step of `_load_dirs` for one matched
subdirectory (`auto_run` keeps its factory default). -/
def sectionForDir (contents : String → DirContents) (m : DirMatch) : Option TutorSection :=
  sectionFor m.dir (title_for m.rawTitle) (contents m.dir).descriptions
    (contents m.dir).snippets sectionFactoryAutoRunDefault (contents m.dir).subsectionTitles

/-- The `ASection._load_dirs` method (tutor.py lines 584-619), with `names` the
names of the subdirectories of `path`: keep the names matching either
directory pattern, sort them by numeric key, build a section for each,
and keep the sections that are not `None`. -/
def load_dirs (contents : String → DirContents) (path : String)
    (names : List String) : List TutorSection :=
  (sortByKey (names.filterMap (parseDirName path))).filterMap (sectionForDir contents)

/-- Directory contents for the C5 counterexample: `/r/0001_a` holds one
description item; every other directory is empty. -/
def exContents5 : String → DirContents :=
  fun d => if d = ("/r/0001_a") then ⟨[exDesc], [], []⟩ else ⟨[], [], []⟩

/-- The `base_names` list of `ASection._load_toc` (tutor.py line 626):
for each table-of-contents entry, the text before the first colon
(not stripped). -/
def tocBaseNames (toc : List String) : List String := toc.map beforeColon

/-- The title computation of `_load_toc` (lines 651-655): without a
colon the entry itself (stripped) through `title_for`, with a colon
the stripped text after it. -/
def tocEntryTitle (entry : String) : String :=
  match afterColonOpt entry with
  | none => title_for (pyStrip (beforeColon entry))
  | some rest1 => pyStrip rest1

/-- Python `base_names.index(base_name)` (line 635): the first index
holding the value, or none (the `ValueError` branch). -/
def indexOfFirst (b : String) : List String → Option Nat
  | [] => none
  | x :: xs => if x == b then some 0 else (indexOfFirst b xs).map (fun n => n + 1)

/-- Appending a file name to group `i` of the `subsections` list
(lines 636-638: a `None` group becomes a list first). -/
def updateGroup : List (Option (List String)) → Nat → String → List (Option (List String))
  | [], _, _ => []
  | g :: gs, 0, name => some ((g.getD []) ++ [name]) :: gs
  | g :: gs, Nat.succ n, name => g :: updateGroup gs n name

/-- One iteration of the file-classification loop of `_load_toc`
(lines 632-640): look the file's base name up among the manifest base
names and append the file to the first matching group; files matching
no entry are skipped. -/
def classifyStep (baseNames : List String) (groups : List (Option (List String)))
    (name : String) : List (Option (List String)) :=
  match indexOfFirst (splitextRoot (basename name)) baseNames with
  | some i => updateGroup groups i name
  | none => groups

/-- The file-classification loop of `_load_toc` over the whole
directory listing, starting from `[None] * len(base_names)`. -/
def load_toc_classify (baseNames : List String) (listing : List String) :
    List (Option (List String)) :=
  listing.foldl (classifyStep baseNames) (List.replicate baseNames.length none)

/-- Combination helper used to state the grouping lemma: matches found
so far merged with the matches still to come. -/
def combineGroup (g : Option (List String)) (ms : List String) : Option (List String) :=
  match g, ms with
  | none, [] => none
  | g, ms => some (g.getD [] ++ ms)

/-- The `ASection._load_toc` method (tutor.py lines 621-675): group the directory
listing by manifest base name, then walk the manifest entries in
order; an entry with no matching file is skipped; a single matching
name that is a directory becomes a subdirectory section, any other
group becomes a files section; entries whose section is `None` are
dropped. The section construction itself is abstracted by the `mkDir`
and `mkFiles` builders. -/
def load_toc (isDir : String → Bool) (mkDir : String → String → Option TutorSection)
    (mkFiles : String → List String → Option TutorSection) (path : String)
    (toc : List String) (listing : List String) : List TutorSection :=
  (toc.zip (load_toc_classify (tocBaseNames toc) listing)).filterMap (fun p =>
    match p.2 with
    | none => none
    | some names =>
      match names with
      | [n] =>
        if isDir (path ++ ("/") ++ n) then mkDir (tocEntryTitle p.1) (path ++ ("/") ++ n)
        else mkFiles (tocEntryTitle p.1) names
      | _ => mkFiles (tocEntryTitle p.1) names)

/-- A concrete files-section builder recording the title and the
grouped file names, for the worked manifest example. -/
def exMkFiles (t : String) (names : List String) : Option TutorSection :=
  some ⟨SectionKind.lab, t, [], names.map (fun n => ⟨n, 0, false⟩), true, false⟩

/-- A concrete subdirectory-section builder for the worked manifest
example. -/
def exMkDir (_t _d : String) : Option TutorSection := none

/-- Worked manifest: entry `b`, entry `a` with a display title, and
entry `c` matching no file. -/
def exToc9 : List String := [("b"), ("a: Part A"), ("c")]

/-- Worked directory listing, in filesystem order. -/
def exListing9 : List String := [("a.py"), ("b.py"), ("a.txt")]

/-- The observable behaviour of the command-line entry point of
`src/examples/tutorials/tutor.py`: whether the usage text and an error
message were printed, the process exit status, and the root directory
the tutor was pointed at (if any). -/
structure CliResult where
  printedUsage : Bool
  printedError : Bool
  exitCode : Nat
  rootDir : Option String
deriving DecidableEq, Repr

/-- The root section built by `Tutor.init_tutor` for a root path: a
`SectionFactory` on the path with a title derived from the directory
name (`tutor.root` is `None` exactly when this is `none`). -/
def tutorRoot (contents : String → DirContents) (path : String) : Option TutorSection :=
  sectionFor path (title_for (splitextRoot (basename path))) (contents path).descriptions
    (contents path).snippets sectionFactoryAutoRunDefault (contents path).subsectionTitles

/-- The `__main__` block and `main` of `src/examples/tutorials/tutor.py`
(lines 34-64): with more than one argument (`len(sys.argv) > 2`) the
usage text is printed and the process exits with status 1; otherwise
the root is the single argument or the current working directory, and
when no lesson content is found there the raised `NameError` is caught,
the error and the usage text are printed, and the script falls off the
end, exiting with status 0. -/
def tutorMain (contents : String → DirContents) (argv : List String)
    (cwd : String) : CliResult :=
  if argv.length > 2 then ⟨true, false, 1, none⟩
  else
    let root := if argv.length = 2 then argv.getD 1 ("") else cwd
    match tutorRoot contents root with
    | some _ => ⟨false, false, 0, some root⟩
    | none => ⟨true, true, 0, some root⟩

/-- Directory contents of a tree with nothing recognized anywhere. -/
def emptyDirContents : String → DirContents := fun _ => ⟨[], [], []⟩

theorem assignStartLinesFrom_length (l : List CodeItem) (start : Nat) :
    (assignStartLinesFrom start l).length = l.length := by
  induction l generalizing start with
  | nil => rfl
  | cons c rest ih => simp [assignStartLinesFrom, ih]

theorem assignStartLinesFrom_start_getD (l : List CodeItem) (start k : Nat)
    (hk : k < l.length) :
    ((assignStartLinesFrom start l).map (fun s => s.start_line)).getD k 0
      = start + ((l.take k).map (fun s => countNewlines s.content + 2)).sum := by
  induction l generalizing start k with
  | nil => exact absurd hk (by simp)
  | cons c rest ih =>
    cases k with
    | zero => simp [assignStartLinesFrom]
    | succ k =>
      have hk' : k < rest.length := by simpa using hk
      have h := ih (start + countNewlines c.content + 2) k hk'
      simp only [assignStartLinesFrom, List.map_cons, List.getD_cons_succ, List.take_succ_cons,
        List.sum_cons] at h ⊢
      omega

theorem sum_map_add_two (l : List CodeItem) :
    (l.map (fun s => countNewlines s.content + 2)).sum
      = (l.map (fun s => countNewlines s.content)).sum + 2 * l.length := by
  induction l with
  | nil => simp
  | cons c rest ih => simp [ih]; omega

/-- C3: when a node's code fragments are concatenated for execution,
fragment `k` is assigned a 1-indexed start line equal to the cumulative
newline-terminated line count of all prior fragments plus the two
separator lines between each pair of fragments; in particular for
fragments with line counts [3, 5] the second fragment starts at line
3 + 2 + 1 = 6. -/
theorem start_line_assignment (items : List CodeItem) (k : Nat) (hk : k < items.length) :
    ((assignStartLines items).map (fun s => s.start_line)).getD k 0
      = specStartLine (items.map (fun s => s.content)) k := by
  have h := assignStartLinesFrom_start_getD items 1 k hk
  have hlen : (items.take k).length = k := by
    simp [List.length_take, Nat.min_eq_left (Nat.le_of_lt hk)]
  have hmaps : ((items.map (fun s => s.content)).take k).map countNewlines
      = (items.take k).map (fun s => countNewlines s.content) := by
    rw [← List.map_take, List.map_map]
    rfl
  rw [assignStartLines, h, specStartLine, sum_map_add_two, hmaps, hlen]
  omega

/-- First code fragment of the worked concatenation example: three
newline-terminated lines. -/
def exC2frag1 : CodeItem := ⟨("x = 1\ny = 2\nz = 3\n"), 0, false⟩

/-- Second code fragment of the worked concatenation example: five
newline-terminated lines. -/
def exC2frag2 : CodeItem := ⟨("a = 1\nb = 2\nc = 3\nd = 4\ne = 5\n"), 0, false⟩

/-- Witness for C3: with fragment line counts [3, 5], fragment 2 is
assigned start line 6. -/
theorem start_line_assignment_witness :
    1 < ([exC2frag1, exC2frag2] : List CodeItem).length ∧
      ((assignStartLines [exC2frag1, exC2frag2]).map (fun s => s.start_line)).getD 1 0 = 6 :=
  ⟨by decide, (start_line_assignment [exC2frag1, exC2frag2] 1 (by decide)).trans (by decide)⟩

theorem mem_of_getLast?_eq {α : Type} {l : List α} {x : α} (h : l.getLast? = some x) :
    x ∈ l := by
  rcases List.mem_getLast?_eq_getLast (Option.mem_def.mpr h) with ⟨hne, rfl⟩
  exact List.getLast_mem hne

theorem chain_lt_of_mem {cur x : CodeItem} {l : List CodeItem}
    (h : List.Chain (fun a b => a.start_line < b.start_line) cur l) (hx : x ∈ l) :
    cur.start_line < x.start_line := by
  induction l generalizing cur with
  | nil => cases hx
  | cons s rest ih =>
    rcases List.chain_cons.mp h with ⟨h1, h2⟩
    rcases List.mem_cons.mp hx with rfl | hx2
    · exact h1
    · exact lt_trans h1 (ih h2 hx2)

theorem chain_assignStartLinesFrom (l : List CodeItem) (start : Nat) (cur : CodeItem)
    (hcur : cur.start_line < start) :
    List.Chain (fun a b => a.start_line < b.start_line) cur (assignStartLinesFrom start l) := by
  induction l generalizing start cur with
  | nil => exact List.Chain.nil
  | cons c rest ih =>
    refine List.Chain.cons ?_ (ih (start + countNewlines c.content + 2) _ ?_)
    · exact hcur
    · show ({ c with start_line := start } : CodeItem).start_line
        < start + countNewlines c.content + 2
      simp
      omega

theorem mem_assignStartLinesFrom_ge (l : List CodeItem) (start : Nat) (x : CodeItem)
    (hx : x ∈ assignStartLinesFrom start l) : start ≤ x.start_line := by
  induction l generalizing start with
  | nil => simp [assignStartLinesFrom] at hx
  | cons c rest ih =>
    simp only [assignStartLinesFrom, List.mem_cons] at hx
    rcases hx with rfl | hx2
    · simp
    · have := ih _ hx2
      omega

theorem selectFrom_filter_getLast (line : Nat) (l : List CodeItem) :
    ∀ cur : CodeItem, cur.start_line ≤ line →
      List.Chain (fun a b => a.start_line < b.start_line) cur l →
      ((cur :: l).filter (fun s => decide (s.start_line ≤ line))).getLast?
        = some (selectFrom cur line l) := by
  induction l with
  | nil =>
    intro cur hcur _
    simp [selectFrom, List.filter, hcur]
  | cons s rest ih =>
    intro cur hcur hchain
    rcases List.chain_cons.mp hchain with ⟨h1, h2⟩
    by_cases hs : line < s.start_line
    · have hnil : (s :: rest).filter (fun t => decide (t.start_line ≤ line)) = [] := by
        rw [List.filter_eq_nil_iff]
        intro a ha
        rcases List.mem_cons.mp ha with rfl | ha2
        · simp
          omega
        · have := chain_lt_of_mem h2 ha2
          simp
          omega
      rw [show ((cur :: s :: rest).filter (fun t => decide (t.start_line ≤ line)))
            = cur :: ((s :: rest).filter (fun t => decide (t.start_line ≤ line))) from by
          simp [List.filter_cons, hcur]]
      rw [hnil]
      simp [selectFrom, hs]
    · have hs' : s.start_line ≤ line := Nat.le_of_not_lt hs
      have ihh := ih s hs' h2
      rw [show ((s :: rest).filter (fun t => decide (t.start_line ≤ line)))
            = s :: (rest.filter (fun t => decide (t.start_line ≤ line))) from by
          simp [List.filter_cons, hs']] at ihh
      rw [show ((cur :: s :: rest).filter (fun t => decide (t.start_line ≤ line)))
            = cur :: s :: (rest.filter (fun t => decide (t.start_line ≤ line))) from by
          simp [List.filter_cons, hcur, hs']]
      rw [List.getLast?_cons_cons, ihh]
      simp [selectFrom, hs]

/-- C2: on a run failing with a syntax error that carries a line
number, the selected fragment is the last fragment (in order) whose
start line does not exceed the reported line, and the surfaced local
line is `reportedLine - (selectedFragment.start_line - 1)`, that is,
`reportedLine - start_line + 1`; in particular with fragments of 3 and
5 lines a failure at concatenated line 10 = fragment 2's start line
6 + 4 maps to local line 5 in fragment 2. -/
theorem run_code_syntax_error_remap (items : List CodeItem) (values : PyNamespace)
    (streams : Streams Nat) (line : Nat) (msg : String) (offset : Nat)
    (execNs : PyNamespace) (written : String)
    (hne : items ≠ []) (hline : 1 ≤ line) :
    (∃ snip, lastFragmentLE (assignStartLines items) line = some snip ∧
        (run_code Nat 0 (fun _ => (ExecOutcome.syntaxError (some line) msg offset, execNs, written))
            items values streams).selected = some (snip, line - snip.start_line + 1))
      ∧ (run_code Nat 0
            (fun _ => (ExecOutcome.syntaxError (some 10) ("invalid syntax") 1,
              emptyPyNamespace, ("")))
            [exC2frag1, exC2frag2] emptyPyNamespace ⟨0, 0⟩).selected
          = some ({ exC2frag2 with start_line := 6 }, 5) := by
  constructor
  · rcases List.exists_cons_of_ne_nil hne with ⟨i, tl, rfl⟩
    have hunfold : assignStartLines (i :: tl)
        = ({ i with start_line := 1 } : CodeItem)
            :: assignStartLinesFrom (1 + countNewlines i.content + 2) tl := rfl
    set hd : CodeItem := { i with start_line := 1 } with hhd
    set tail2 : List CodeItem := assignStartLinesFrom (1 + countNewlines i.content + 2) tl
      with htail2
    have hchain : List.Chain (fun a b => a.start_line < b.start_line) hd tail2 := by
      refine chain_assignStartLinesFrom tl _ hd ?_
      simp [hhd]
    have hhdle : hd.start_line ≤ line := by simpa [hhd] using hline
    have hsel : selectSnippet (assignStartLines (i :: tl)) line = selectFrom hd line tail2 := by
      rw [hunfold]
      simp only [selectSnippet, List.headI]
      rw [show selectFrom hd line (hd :: tail2) = selectFrom hd line tail2 from by
        simp [selectFrom, Nat.not_lt_of_le hhdle]]
    have hlast : lastFragmentLE (assignStartLines (i :: tl)) line
        = some (selectFrom hd line tail2) := by
      rw [lastFragmentLE, hunfold]
      exact selectFrom_filter_getLast line tail2 hd hhdle hchain
    refine ⟨selectFrom hd line tail2, hlast, ?_⟩
    have hmem : selectFrom hd line tail2 ∈ assignStartLines (i :: tl) := by
      have : selectFrom hd line tail2 ∈
          (assignStartLines (i :: tl)).filter (fun s => decide (s.start_line ≤ line)) := by
        have := hlast
        rw [lastFragmentLE] at this
        exact mem_of_getLast?_eq this
      exact List.mem_of_mem_filter this
    have hge : 1 ≤ (selectFrom hd line tail2).start_line :=
      mem_assignStartLinesFrom_ge (i :: tl) 1 _ hmem
    have hle : (selectFrom hd line tail2).start_line ≤ line := by
      have hmemf : selectFrom hd line tail2 ∈
          (assignStartLines (i :: tl)).filter (fun s => decide (s.start_line ≤ line)) := by
        have := hlast
        rw [lastFragmentLE] at this
        exact mem_of_getLast?_eq this
      have := List.of_mem_filter hmemf
      simpa using this
    have hrc : (run_code Nat 0
        (fun _ => (ExecOutcome.syntaxError (some line) msg offset, execNs, written))
        (i :: tl) values streams).selected
        = some (selectFrom hd line tail2,
            line - ((selectFrom hd line tail2).start_line - 1)) := by
      simp only [run_code]
      rw [show selectFrom (assignStartLinesFrom 1 (i :: tl)).headI line
            (assignStartLinesFrom 1 (i :: tl)) = selectFrom hd line tail2 from by
        have := hsel
        simpa [selectSnippet, assignStartLines] using this]
    rw [hrc]
    have : line - ((selectFrom hd line tail2).start_line - 1)
        = line - (selectFrom hd line tail2).start_line + 1 := by omega
    rw [this]
  · decide

/-- Witness for C2: the general mapping applied to the two-fragment
example with the failure on concatenated line 10. -/
theorem run_code_syntax_error_remap_witness :
    ([exC2frag1, exC2frag2] : List CodeItem) ≠ [] ∧ 1 ≤ 10 ∧
      (run_code Nat 0
          (fun _ => (ExecOutcome.syntaxError (some 10) ("invalid syntax") 1,
            emptyPyNamespace, ("")))
          [exC2frag1, exC2frag2] emptyPyNamespace ⟨0, 0⟩).selected
        = some ({ exC2frag2 with start_line := 6 }, 5) :=
  ⟨by decide, by decide,
    (run_code_syntax_error_remap [exC2frag1, exC2frag2] emptyPyNamespace ⟨0, 0⟩ 10
      ("invalid syntax") 1 emptyPyNamespace ("") (by decide) (by decide)).2⟩

/-- C6: the standard output and error streams are restored to their
original values on every exit path of `run_code`, whatever the outcome
of executing the module (success, syntax error with or without a line
number, or any other exception). -/
theorem run_code_restores_streams (σ : Type) (redirected : σ)
    (execModule : PyNamespace → ExecOutcome × PyNamespace × String)
    (snippets0 : List CodeItem) (values0 : PyNamespace) (streams0 : Streams σ) :
    (run_code σ redirected execModule snippets0 values0 streams0).streams = streams0 := by
  simp only [run_code]
  rcases hr : (execModule (clearStale values0)).1 with _ | ⟨ln, msg, off⟩ | tr
  · rfl
  · rcases ln with _ | l <;> rfl
  · rfl

/-- Counterexample for C8: a namespace binding 'demo' to a value that
is not a `HasTraits` instance reaches the execution step with that
binding still present, so the namespace passed to execution is not
always free of the two conventional names. -/
theorem run_code_stale_binding_cex :
    (run_code Nat 0 (fun ns => (ExecOutcome.ok, ns, (""))) [] exPlainDemoNamespace
        ⟨0, 0⟩).values ("demo") = some (PyValue.plain 0) := by
  decide

/-- C8 (amended): before each run, the bindings of 'demo' and 'popup'
are removed from the execution namespace exactly when their current
value is a `HasTraits` instance; a binding of either name to any other
value, and every other name, is left unchanged. -/
theorem clear_stale_behavior (ns : PyNamespace) (name : String) :
    clearStale ns name
      = if ((name = ("demo") ∨ name = ("popup"))
            ∧ ((ns name).map isHasTraits).getD false) then none else ns name := by
  by_cases hd : name = ("demo")
  · subst hd
    simp only [clearStale, deleteKey]
    by_cases h1 : ((ns ("demo")).map isHasTraits).getD false <;>
      by_cases h2 : ((ns ("popup")).map isHasTraits).getD false <;>
        simp [h1, h2, deleteKey]
  · by_cases hp : name = ("popup")
    · subst hp
      simp only [clearStale, deleteKey]
      by_cases h1 : ((ns ("demo")).map isHasTraits).getD false <;>
        by_cases h2 : ((ns ("popup")).map isHasTraits).getD false <;>
          simp [h1, h2, deleteKey, hd]
    · simp only [clearStale, deleteKey]
      by_cases h1 : ((ns ("demo")).map isHasTraits).getD false <;>
        by_cases h2 : ((ns ("popup")).map isHasTraits).getD false <;>
          simp [h1, h2, deleteKey, hd, hp]

/-- C1: a directory whose collected items include at least one
description item and at least one non-hidden code fragment classifies
as a Lesson; with descriptions and only hidden fragments, as a Demo;
with only descriptions, as a Lecture; with only code fragments, as a
Lab. -/
theorem classify_kinds (path title : String) (descs : List DescItem)
    (snips : List CodeItem) (ar : Bool) (subs : List String) :
    (descs ≠ [] → snips ≠ [] → (∃ s ∈ snips, s.hidden = false) →
      ∃ sec, sectionFor path title descs snips ar subs = some sec
        ∧ sec.kind = SectionKind.lesson)
    ∧ (descs ≠ [] → snips ≠ [] → (∀ s ∈ snips, s.hidden = true) →
      ∃ sec, sectionFor path title descs snips ar subs = some sec
        ∧ sec.kind = SectionKind.demo)
    ∧ (descs ≠ [] → snips = [] →
      ∃ sec, sectionFor path title descs snips ar subs = some sec
        ∧ sec.kind = SectionKind.lecture)
    ∧ (descs = [] → snips ≠ [] →
      ∃ sec, sectionFor path title descs snips ar subs = some sec
        ∧ sec.kind = SectionKind.lab) := by
  refine ⟨?_, ?_, ?_, ?_⟩
  · intro hd hs hv
    have h1 : 0 < descs.length := List.length_pos.mpr hd
    have h2 : 0 < snips.length := List.length_pos.mpr hs
    rcases hv with ⟨s, hsm, hshid⟩
    have h3 : 0 < (snips.filter (fun s => !s.hidden)).length := by
      refine List.length_pos.mpr ?_
      intro hnil
      have : s ∈ snips.filter (fun s => !s.hidden) :=
        List.mem_filter.mpr ⟨hsm, by simp [hshid]⟩
      simp [hnil] at this
    refine ⟨⟨SectionKind.lesson, title, descs, snips, true, ar⟩, ?_, rfl⟩
    rw [sectionFor, if_pos h1, if_pos h2, if_pos h3]
  · intro hd hs hv
    have h1 : 0 < descs.length := List.length_pos.mpr hd
    have h2 : 0 < snips.length := List.length_pos.mpr hs
    have h3 : ¬ 0 < (snips.filter (fun s => !s.hidden)).length := by
      have : snips.filter (fun s => !s.hidden) = [] := by
        rw [List.filter_eq_nil_iff]
        intro a ha
        simp [hv a ha]
      simp [this]
    refine ⟨⟨SectionKind.demo, title, descs, snips, true, true⟩, ?_, rfl⟩
    rw [sectionFor, if_pos h1, if_pos h2, if_neg h3]
  · intro hd hs
    have h1 : 0 < descs.length := List.length_pos.mpr hd
    have h2 : ¬ 0 < snips.length := by simp [hs]
    refine ⟨⟨SectionKind.lecture, title, descs, [], false, false⟩, ?_, rfl⟩
    rw [sectionFor, if_pos h1, if_neg h2]
  · intro hd hs
    have h1 : ¬ 0 < descs.length := by simp [hd]
    have h2 : 0 < snips.length := List.length_pos.mpr hs
    refine ⟨⟨SectionKind.lab, title, [], snips, true, ar⟩, ?_, rfl⟩
    rw [sectionFor, if_neg h1, if_pos h2]

/-- Witness for C1: the four classification branches at concrete
item lists. -/
theorem classify_kinds_witness :
    (∃ sec, sectionFor ("p") ("t") [exDesc] [exVisibleSnippet] false [] = some sec
      ∧ sec.kind = SectionKind.lesson)
    ∧ (∃ sec, sectionFor ("p") ("t") [exDesc] [exHiddenSnippet] false [] = some sec
      ∧ sec.kind = SectionKind.demo)
    ∧ (∃ sec, sectionFor ("p") ("t") [exDesc] [] false [] = some sec
      ∧ sec.kind = SectionKind.lecture)
    ∧ (∃ sec, sectionFor ("p") ("t") [] [exVisibleSnippet] false [] = some sec
      ∧ sec.kind = SectionKind.lab) :=
  ⟨(classify_kinds ("p") ("t") [exDesc] [exVisibleSnippet] false []).1
      (by decide) (by decide) ⟨exVisibleSnippet, by decide⟩,
    (classify_kinds ("p") ("t") [exDesc] [exHiddenSnippet] false []).2.1
      (by decide) (by decide) (by decide),
    (classify_kinds ("p") ("t") [exDesc] [] false []).2.2.1 (by decide) rfl,
    (classify_kinds ("p") ("t") [] [exVisibleSnippet] false []).2.2.2 rfl (by decide)⟩

/-- Counterexample for C4: a directory with no recognized files and no
subdirectories produces no section at all (`SectionFactory.section`
stays `None`), not a Lecture. -/
theorem classify_empty_none_cex :
    sectionFor ("/r/empty") ("Empty") [] [] false [] = none := by
  decide

/-- C4 (amended): a directory with no recognized files and no
subdirectory-derived children yields no node at all; only when the
bare lecture has at least one subsection does classification yield a
(non-runnable) Lecture, whose single description item is the
synthesized page listing the subsection titles. -/
theorem classify_empty_dir_behavior (path title : String) (ar : Bool)
    (subs : List String) :
    sectionFor path title [] [] ar [] = none
    ∧ (subs ≠ [] →
        sectionFor path title [] [] ar subs
          = some ⟨SectionKind.lecture, title, [synthDescription path subs], [], false, false⟩) := by
  constructor
  · rw [sectionFor]
    simp
  · intro h
    have h3 : 0 < subs.length := List.length_pos.mpr h
    rw [sectionFor]
    simp [h3]

/-- Witness for C4 (amended): a childless empty directory gives no
section, and one subsection title produces the synthesized lecture. -/
theorem classify_empty_dir_behavior_witness :
    ([("A")] : List String) ≠ [] ∧
      sectionFor ("/r/d") ("T") [] [] false [("A")]
        = some ⟨SectionKind.lecture, ("T"), [synthDescription ("/r/d") [("A")]], [], false, false⟩ :=
  ⟨by decide, (classify_empty_dir_behavior ("/r/d") ("T") false [("A")]).2 (by decide)⟩

/-- C10: a Demo section always has `auto_run` forced to `True`
(whatever the factory's setting), so `LabHandler.init` runs its code
on display, while Lesson and Lab sections receive the factory's
`auto_run` value, whose default is `False`. -/
theorem demo_auto_run_override (path title : String) (descs : List DescItem)
    (snips : List CodeItem) (ar : Bool) (subs : List String) :
    (∀ sec, sectionFor path title descs snips ar subs = some sec →
      sec.kind = SectionKind.demo →
        sec.auto_run = true ∧ labHandlerRunsCode sec.auto_run = true)
    ∧ (∀ sec, sectionFor path title descs snips ar subs = some sec →
      (sec.kind = SectionKind.lesson ∨ sec.kind = SectionKind.lab) →
        sec.auto_run = ar)
    ∧ sectionFactoryAutoRunDefault = false := by
  refine ⟨?_, ?_, rfl⟩
  · intro sec h hk
    rw [sectionFor] at h
    split_ifs at h <;>
      (injection h with h2e; subst h2e; first | exact ⟨rfl, rfl⟩ | simp at hk)
  · intro sec h hk
    rw [sectionFor] at h
    split_ifs at h <;>
      (injection h with h2e; subst h2e;
        first | rfl | (rcases hk with hk | hk <;> simp at hk))

/-- Witness for C10: the Demo branch at concrete inputs has `auto_run`
true even though the factory setting is false, and a Lesson keeps the
factory's value. -/
theorem demo_auto_run_override_witness :
    (TutorSection.mk SectionKind.demo ("t") [exDesc] [exHiddenSnippet] true true).auto_run = true
    ∧ labHandlerRunsCode
        (TutorSection.mk SectionKind.demo ("t") [exDesc] [exHiddenSnippet] true true).auto_run
        = true
    ∧ (TutorSection.mk SectionKind.lesson ("t") [exDesc] [exVisibleSnippet] true false).auto_run
        = false :=
  ⟨((demo_auto_run_override ("t") ("t") [exDesc] [exHiddenSnippet] false []).1
      (TutorSection.mk SectionKind.demo ("t") [exDesc] [exHiddenSnippet] true true)
      (by decide) rfl).1,
    ((demo_auto_run_override ("t") ("t") [exDesc] [exHiddenSnippet] false []).1
      (TutorSection.mk SectionKind.demo ("t") [exDesc] [exHiddenSnippet] true true)
      (by decide) rfl).2,
    (demo_auto_run_override ("t") ("t") [exDesc] [exVisibleSnippet] false []).2.1
      (TutorSection.mk SectionKind.lesson ("t") [exDesc] [exVisibleSnippet] true false)
      (by decide) (Or.inl rfl)⟩

theorem keyLE_trans {a b c : DecKey} (h1 : keyLE a b) (h2 : keyLE b c) : keyLE a c := by
  unfold keyLE at h1 h2 ⊢
  have hb : 0 < (10 : Nat) ^ b.scale := Nat.pos_pow_of_pos _ (by norm_num)
  have h1' : a.mantissa * 10 ^ b.scale * 10 ^ c.scale
      ≤ b.mantissa * 10 ^ a.scale * 10 ^ c.scale := Nat.mul_le_mul_right _ h1
  have h2' : b.mantissa * 10 ^ c.scale * 10 ^ a.scale
      ≤ c.mantissa * 10 ^ b.scale * 10 ^ a.scale := Nat.mul_le_mul_right _ h2
  have hch : a.mantissa * 10 ^ c.scale * 10 ^ b.scale
      ≤ c.mantissa * 10 ^ a.scale * 10 ^ b.scale := by
    calc a.mantissa * 10 ^ c.scale * 10 ^ b.scale
        = a.mantissa * 10 ^ b.scale * 10 ^ c.scale := by ring
      _ ≤ b.mantissa * 10 ^ a.scale * 10 ^ c.scale := h1'
      _ = b.mantissa * 10 ^ c.scale * 10 ^ a.scale := by ring
      _ ≤ c.mantissa * 10 ^ b.scale * 10 ^ a.scale := h2'
      _ = c.mantissa * 10 ^ a.scale * 10 ^ b.scale := by ring
  exact Nat.le_of_mul_le_mul_right hch hb

theorem keyLE_of_not_keyLE {a b : DecKey} (h : ¬ keyLE a b) : keyLE b a := by
  unfold keyLE at h ⊢
  omega

theorem mem_insertByKey {x z : DirMatch} {l : List DirMatch} :
    z ∈ insertByKey x l ↔ z = x ∨ z ∈ l := by
  induction l with
  | nil => simp [insertByKey]
  | cons y ys ih =>
    simp only [insertByKey]
    split_ifs with h
    · simp [List.mem_cons]
    · simp only [List.mem_cons, ih]
      tauto

theorem pairwise_insertByKey {x : DirMatch} {l : List DirMatch}
    (h : List.Pairwise (fun a b => keyLE a.key b.key) l) :
    List.Pairwise (fun a b => keyLE a.key b.key) (insertByKey x l) := by
  induction l with
  | nil => simp [insertByKey]
  | cons y ys ih =>
    rcases List.pairwise_cons.mp h with ⟨hy, hys⟩
    simp only [insertByKey]
    split_ifs with hle
    · refine List.pairwise_cons.mpr ⟨?_, h⟩
      intro z hz
      rcases List.mem_cons.mp hz with rfl | hz2
      · exact hle
      · exact keyLE_trans hle (hy z hz2)
    · refine List.pairwise_cons.mpr ⟨?_, ih hys⟩
      intro z hz
      rcases mem_insertByKey.mp hz with rfl | hz2
      · exact keyLE_of_not_keyLE hle
      · exact hy z hz2

theorem pairwise_sortByKey (l : List DirMatch) :
    List.Pairwise (fun a b => keyLE a.key b.key) (sortByKey l) := by
  induction l with
  | nil => simp [sortByKey]
  | cons x xs ih => exact pairwise_insertByKey ih

theorem perm_insertByKey (x : DirMatch) (l : List DirMatch) :
    (insertByKey x l).Perm (x :: l) := by
  induction l with
  | nil => simp [insertByKey]
  | cons y ys ih =>
    simp only [insertByKey]
    split_ifs with hle
    · exact List.Perm.refl _
    · exact (List.Perm.cons y ih).trans (List.Perm.swap x y ys)

theorem perm_sortByKey (l : List DirMatch) : (sortByKey l).Perm l := by
  induction l with
  | nil => exact List.Perm.refl _
  | cons x xs ih =>
    exact (perm_insertByKey x (sortByKey xs)).trans (List.Perm.cons x ih)

/-- Counterexample for C5: both `0002_b` and `0001_a` match the
numeric-prefix pattern, but when `/r/0002_b` holds no recognized
content and has no subdirectories its section is `None` and it is
dropped, so the children are not exactly the matching
subdirectories. -/
theorem load_dirs_drops_matching_dir_cex :
    (parseDirName ("/r") ("0002_b")).isSome = true
    ∧ (load_dirs exContents5 ("/r") [("0002_b"), ("0001_a")]).length = 1 := by
  constructor
  · decide
  · decide

/-- C5 (amended): with no manifest, the candidate children are exactly
the subdirectories matching the leading-numeric-prefix pattern
(`NNNN_title`) or the trailing-numeric-suffix pattern (`title_N.N`),
stably sorted ascending by the extracted numeric key with prefix- and
suffix-named entries interleaved by value (`bar_0.5 < 0001_a <
foo_1.5 < 0002_b`, non-matching `misc` excluded); the children are the
sections these candidates yield, those yielding no section being
dropped as well. -/
theorem load_dirs_order_behavior (contents : String → DirContents) (path : String)
    (names : List String) :
    List.Pairwise (fun a b => keyLE a.key b.key)
        (sortByKey (names.filterMap (parseDirName path)))
    ∧ (sortByKey (names.filterMap (parseDirName path))).Perm
        (names.filterMap (parseDirName path))
    ∧ load_dirs contents path names
        = (sortByKey (names.filterMap (parseDirName path))).filterMap (sectionForDir contents)
    ∧ (sortByKey (([("0002_b"), ("0001_a"), ("foo_1.5"), ("bar_0.5"), ("misc")]).filterMap
          (parseDirName ("/r")))).map (fun m => m.dir)
        = [("/r/bar_0.5"), ("/r/0001_a"), ("/r/foo_1.5"), ("/r/0002_b")] :=
  ⟨pairwise_sortByKey _, perm_sortByKey _, rfl, by decide⟩

theorem updateGroup_length (gs : List (Option (List String))) (i : Nat) (name : String) :
    (updateGroup gs i name).length = gs.length := by
  induction gs generalizing i with
  | nil => rfl
  | cons g gs ih =>
    cases i with
    | zero => rfl
    | succ n => simp [updateGroup, ih]

theorem updateGroup_getD_self (gs : List (Option (List String))) (i : Nat) (name : String)
    (hi : i < gs.length) :
    (updateGroup gs i name).getD i none = some (((gs.getD i none).getD []) ++ [name]) := by
  induction gs generalizing i with
  | nil => exact absurd hi (by simp)
  | cons g gs ih =>
    cases i with
    | zero => rfl
    | succ n =>
      have hn : n < gs.length := by simpa using hi
      simpa [updateGroup] using ih n hn

theorem updateGroup_getD_other (gs : List (Option (List String))) (i j : Nat) (name : String)
    (hij : j ≠ i) :
    (updateGroup gs i name).getD j none = gs.getD j none := by
  induction gs generalizing i j with
  | nil => rfl
  | cons g gs ih =>
    cases i with
    | zero =>
      cases j with
      | zero => exact absurd rfl hij
      | succ m => rfl
    | succ n =>
      cases j with
      | zero => rfl
      | succ m =>
        have : m ≠ n := by omega
        simpa [updateGroup] using ih n m this

theorem indexOfFirst_spec (b : String) (l : List String) (i : Nat)
    (h : indexOfFirst b l = some i) : i < l.length ∧ l.getD i ("") = b := by
  induction l generalizing i with
  | nil => simp [indexOfFirst] at h
  | cons x xs ih =>
    by_cases hx : (x == b) = true
    · have hxb : x = b := beq_iff_eq.mp hx
      simp [indexOfFirst, hx] at h
      subst h
      exact ⟨by simp, by simpa using hxb⟩
    · simp [indexOfFirst, hx] at h
      rcases h with ⟨n, hn, rfl⟩
      rcases ih n hn with ⟨h1, h2⟩
      exact ⟨by simpa using Nat.succ_lt_succ h1, by simpa using h2⟩

theorem indexOfFirst_of_getD (l : List String) (b : String) (i : Nat)
    (hn : l.Nodup) (hi : i < l.length) (hb : l.getD i ("") = b) :
    indexOfFirst b l = some i := by
  induction l generalizing i with
  | nil => exact absurd hi (by simp)
  | cons x xs ih =>
    rcases List.nodup_cons.mp hn with ⟨hx, hxs⟩
    cases i with
    | zero =>
      have hxb : x = b := by simpa using hb
      simp [indexOfFirst, hxb]
    | succ n =>
      have hi' : n < xs.length := by simpa using hi
      have hb' : xs.getD n ("") = b := by simpa using hb
      have hmem : b ∈ xs := by
        rw [← hb', List.getD_eq_getElem xs ("") hi']
        exact List.getElem_mem hi'
      have hxb : ¬ (x == b) = true := by
        intro hcontra
        exact hx ((beq_iff_eq.mp hcontra) ▸ hmem)
      have hrec : indexOfFirst b xs = some n := ih n hxs hi' hb'
      simp [indexOfFirst, hxb, hrec]

theorem indexOfFirst_isSome_of_mem {b : String} {l : List String} (h : b ∈ l) :
    (indexOfFirst b l).isSome = true := by
  induction l with
  | nil => cases h
  | cons x xs ih =>
    by_cases hx : (x == b) = true
    · simp [indexOfFirst, hx]
    · rcases List.mem_cons.mp h with rfl | h2
      · simp at hx
      · have := ih h2
        simpa [indexOfFirst, hx, Option.isSome_map] using this

theorem nodup_getD_ne (l : List String) (hn : l.Nodup) (i j : Nat)
    (hi : i < l.length) (hj : j < l.length) (hij : i ≠ j) :
    l.getD i ("") ≠ l.getD j ("") := by
  induction l generalizing i j with
  | nil => simp at hi
  | cons x xs ih =>
    rcases List.nodup_cons.mp hn with ⟨hx, hxs⟩
    cases i with
    | zero =>
      cases j with
      | zero => exact absurd rfl hij
      | succ m =>
        have hm : m < xs.length := by simpa using hj
        simp only [List.getD_cons_zero, List.getD_cons_succ]
        intro heq
        refine hx ?_
        rw [heq, List.getD_eq_getElem xs ("") hm]
        exact List.getElem_mem hm
    | succ n =>
      cases j with
      | zero =>
        have hnn : n < xs.length := by simpa using hi
        simp only [List.getD_cons_zero, List.getD_cons_succ]
        intro heq
        refine hx ?_
        rw [← heq, List.getD_eq_getElem xs ("") hnn]
        exact List.getElem_mem hnn
      | succ m =>
        have : n ≠ m := by omega
        simpa using ih hxs n m (by simpa using hi) (by simpa using hj) this

theorem classify_fold_getD (baseNames : List String) (hn : baseNames.Nodup) :
    ∀ (listing : List String) (gs : List (Option (List String))),
      gs.length = baseNames.length →
      ∀ i, i < baseNames.length →
        (listing.foldl (classifyStep baseNames) gs).getD i none
          = combineGroup (gs.getD i none)
              (listing.filter (fun n => splitextRoot (basename n) == baseNames.getD i (""))) := by
  intro listing
  induction listing with
  | nil =>
    intro gs hlen i hi
    simp only [List.foldl_nil, List.filter_nil]
    cases hgi : gs.getD i none with
    | none => simp [combineGroup]
    | some xs => simp [combineGroup]
  | cons name rest ih =>
    intro gs hlen i hi
    simp only [List.foldl_cons]
    by_cases hmatch : (splitextRoot (basename name) == baseNames.getD i ("")) = true
    · have hbeq : splitextRoot (basename name) = baseNames.getD i ("") := beq_iff_eq.mp hmatch
      have hidx : indexOfFirst (splitextRoot (basename name)) baseNames = some i :=
        indexOfFirst_of_getD baseNames (splitextRoot (basename name)) i hn hi hbeq.symm
      have hstep : classifyStep baseNames gs name = updateGroup gs i name := by
        rw [classifyStep, hidx]
      have hfil2 : List.filter (fun n => splitextRoot (basename n) == baseNames.getD i (""))
            (name :: rest)
          = name :: List.filter (fun n => splitextRoot (basename n) == baseNames.getD i ("")) rest :=
        List.filter_cons_of_pos hmatch
      rw [hstep, ih (updateGroup gs i name) (by rw [updateGroup_length, hlen]) i hi,
        updateGroup_getD_self gs i name (by omega), hfil2]
      cases hgi : gs.getD i none with
      | none => simp [combineGroup]
      | some xs => simp [combineGroup]
    · have hfil : (List.filter (fun n => splitextRoot (basename n) == baseNames.getD i (""))
            (name :: rest))
          = List.filter (fun n => splitextRoot (basename n) == baseNames.getD i ("")) rest :=
        List.filter_cons_of_neg hmatch
      cases hidx : indexOfFirst (splitextRoot (basename name)) baseNames with
      | none =>
        have hstep : classifyStep baseNames gs name = gs := by rw [classifyStep, hidx]
        rw [hstep, ih gs hlen i hi, hfil]
      | some j =>
        have hji : i ≠ j := by
          intro hcontra
          subst hcontra
          rcases indexOfFirst_spec (splitextRoot (basename name)) baseNames i hidx with ⟨_, hjval⟩
          refine hmatch ?_
          rw [hjval]
          simp
        have hstep : classifyStep baseNames gs name = updateGroup gs j name := by
          rw [classifyStep, hidx]
        rw [hstep, ih (updateGroup gs j name) (by rw [updateGroup_length, hlen]) i hi,
          updateGroup_getD_other gs j i name hji, hfil]

theorem replicate_none_getD (n i : Nat) :
    (List.replicate n (none : Option (List String))).getD i none = none := by
  induction n generalizing i with
  | zero => simp
  | succ m ih =>
    cases i with
    | zero => rfl
    | succ k => exact ih k

/-- C9: with an explicit manifest, the directory's children follow the
manifest's order; each directory entry is matched to a manifest entry
by base file name (first matching entry), files sharing a base name
collect under one manifest entry in listing order, and manifest
entries matching no file are omitted. The worked example shows
manifest order `b` before `a` despite the listing order, the grouping
of `a.py` with `a.txt`, the display title annotation, and the dropped
entry `c`. -/
theorem load_toc_manifest_grouping (toc listing : List String)
    (hn : (tocBaseNames toc).Nodup) :
    (∀ i, i < toc.length →
      (load_toc_classify (tocBaseNames toc) listing).getD i none
        = (if (listing.filter
              (fun n => splitextRoot (basename n) == (tocBaseNames toc).getD i (""))).isEmpty
            then none
            else some (listing.filter
              (fun n => splitextRoot (basename n) == (tocBaseNames toc).getD i ("")))))
    ∧ load_toc (fun _ => false) exMkDir exMkFiles ("/r") exToc9 exListing9
        = [⟨SectionKind.lab, ("B"), [], [⟨("b.py"), 0, false⟩], true, false⟩,
           ⟨SectionKind.lab, ("Part A"), [],
             [⟨("a.py"), 0, false⟩, ⟨("a.txt"), 0, false⟩], true, false⟩] := by
  constructor
  · intro i hi
    have hi' : i < (tocBaseNames toc).length := by simpa [tocBaseNames] using hi
    have h := classify_fold_getD (tocBaseNames toc) hn listing
      (List.replicate (tocBaseNames toc).length none) (by simp) i hi'
    rw [load_toc_classify, h, replicate_none_getD]
    cases hf : listing.filter
        (fun n => splitextRoot (basename n) == (tocBaseNames toc).getD i ("")) with
    | nil => simp [combineGroup]
    | cons a as => simp [combineGroup]
  · decide

/-- Witness for C9: the grouping formula at manifest entry 0 of the
worked example, and the worked example's children list. -/
theorem load_toc_manifest_grouping_witness :
    (tocBaseNames exToc9).Nodup ∧
      (load_toc_classify (tocBaseNames exToc9) exListing9).getD 0 none = some [("b.py")] ∧
      load_toc (fun _ => false) exMkDir exMkFiles ("/r") exToc9 exListing9
        = [⟨SectionKind.lab, ("B"), [], [⟨("b.py"), 0, false⟩], true, false⟩,
           ⟨SectionKind.lab, ("Part A"), [],
             [⟨("a.py"), 0, false⟩, ⟨("a.txt"), 0, false⟩], true, false⟩] := by
  refine ⟨by decide, ?_, (load_toc_manifest_grouping exToc9 exListing9 (by decide)).2⟩
  have h := (load_toc_manifest_grouping exToc9 exListing9 (by decide)).1 0 (by decide)
  exact h.trans (by decide)

/-- Counterexample for C7: with no argument and no recognizable lesson
content at the current working directory, the entry point prints the
usage message but terminates with exit status 0, not a nonzero
status. -/
theorem tutor_main_exit_code_cex :
    (tutorMain emptyDirContents [("tutor.py")] ("/r")).exitCode = 0
    ∧ (tutorMain emptyDirContents [("tutor.py")] ("/r")).printedUsage = true := by
  exact ⟨by decide, by decide⟩

/-- C7 (amended): the entry point prints the usage message and exits
with status 1 when given more than one argument; with at most one
argument the root is the argument or, by default, the current working
directory; when no recognizable lesson content is found at the
resolved root, the error and the usage message are printed but the
process exits with status 0. -/
theorem tutor_main_behavior (contents : String → DirContents) (argv : List String)
    (cwd : String) :
    (argv.length > 2 → tutorMain contents argv cwd = ⟨true, false, 1, none⟩)
    ∧ (argv.length ≤ 2 →
        (tutorMain contents argv cwd).rootDir
          = some (if argv.length = 2 then argv.getD 1 ("") else cwd))
    ∧ (argv.length ≤ 2 →
        tutorRoot contents (if argv.length = 2 then argv.getD 1 ("") else cwd) = none →
        tutorMain contents argv cwd
          = ⟨true, true, 0, some (if argv.length = 2 then argv.getD 1 ("") else cwd)⟩) := by
  refine ⟨?_, ?_, ?_⟩
  · intro h
    simp [tutorMain, h]
  · intro h
    have h2 : ¬ argv.length > 2 := by omega
    simp only [tutorMain, if_neg h2]
    split <;> rfl
  · intro h hnone
    have h2 : ¬ argv.length > 2 := by omega
    simp only [tutorMain, if_neg h2]
    split
    · rename_i sec heq
      rw [hnone] at heq
      cases heq
    · rfl

/-- Witness for C7 (amended): three concrete invocations, one per
behaviour. -/
theorem tutor_main_behavior_witness :
    (([("tutor.py"), ("a"), ("b")] : List String).length > 2
      ∧ tutorMain emptyDirContents [("tutor.py"), ("a"), ("b")] ("/r")
          = ⟨true, false, 1, none⟩)
    ∧ (([("tutor.py")] : List String).length ≤ 2
      ∧ (tutorMain emptyDirContents [("tutor.py")] ("/r")).rootDir = some ("/r"))
    ∧ (tutorRoot emptyDirContents ("/r") = none
      ∧ tutorMain emptyDirContents [("tutor.py")] ("/r")
          = ⟨true, true, 0, some ("/r")⟩) := by
  refine ⟨⟨by decide,
      (tutor_main_behavior emptyDirContents [("tutor.py"), ("a"), ("b")] ("/r")).1 (by decide)⟩,
    ⟨by decide, ?_⟩, ⟨by decide, ?_⟩⟩
  · have h := (tutor_main_behavior emptyDirContents [("tutor.py")] ("/r")).2.1 (by decide)
    exact h.trans (by decide)
  · have h := (tutor_main_behavior emptyDirContents [("tutor.py")] ("/r")).2.2
      (by decide) (by decide)
    exact h.trans (by decide)

end Tutor
